import Mathlib

/-!
# volplugin, package `config`: volume configuration

A shallow embedding of `config/volume.go` (the volume part of the
configuration repository) and of the option merge it calls, followed by the
properties of the specification that were checked against it.

Go strings are `String`, `uint64` and `uint` are `Nat` (no arithmetic is done
on them here; the parsers that produce them check the 64 bit range), a Go
`error` is `Option Error` (`none` is `nil`), and a function that returns
`(value, error)` returns a pair or an `Except`.
-/

set_option autoImplicit false

namespace config

/-! ## Data model (volume.go, lines 9-29) -/

/-- SnapshotConfig is the configuration for snapshots (volume.go:26). -/
structure SnapshotConfig where
  Frequency : String
  Keep : Nat
  deriving DecidableEq, Repr

/-- VolumeOptions comprises the optional parameters a volume can accept
(volume.go:19). -/
structure VolumeOptions where
  Size : Nat
  UseSnapshots : Bool
  Snapshot : SnapshotConfig
  deriving DecidableEq, Repr

/-- VolumeConfig is the configuration of a volume (volume.go:11). -/
structure VolumeConfig where
  Name : String
  Pool : String
  VolumeName : String
  Options : VolumeOptions
  deriving DecidableEq, Repr

/-- The zero value of `SnapshotConfig`. -/
def SnapshotConfig.zero : SnapshotConfig := { Frequency := "", Keep := 0 }

/-- The zero value of `VolumeOptions` (`VolumeOptions{}`). -/
def VolumeOptions.zero : VolumeOptions :=
  { Size := 0, UseSnapshots := false, Snapshot := SnapshotConfig.zero }

/-- The zero value of `VolumeConfig` (`&VolumeConfig{}`). -/
def VolumeConfig.zero : VolumeConfig :=
  { Name := "", Pool := "", VolumeName := "", Options := VolumeOptions.zero }

/-- Errors of the package and of the libraries it calls. -/
inductive Error where
  /-- `ErrExist`, returned by `CreateVolume` for a volume that exists. -/
  | ErrExist
  /-- An error made with `fmt.Errorf`. -/
  | Errorf (msg : String)
  /-- The store has no node at the key (etcd error 100). -/
  | KeyNotFound (key : String)
  /-- The store was asked to write a value on a directory (etcd error 102). -/
  | NotFile (key : String)
  /-- A component of the key is a file (etcd error 104). -/
  | NotDir (key : String)
  /-- The document could not be decoded into the Go value by `json.Unmarshal`. -/
  | Unmarshal (msg : String)
  /-- The override at `key` does not parse for the type of its field. -/
  | MergeError (key : String) (value : String)
  /-- Index out of range in a slice expression. -/
  | Panic
  deriving DecidableEq, Repr

/-! ## Validate (volume.go, lines 140-151) -/

/-- Validate validates a volume configuration, returning error on any issue. -/
def VolumeConfig.Validate (cfg : VolumeConfig) : Option Error :=
  if cfg.Options.Size = 0 then
    some (Error.Errorf "Config for tenant has a zero size")
  else if cfg.Options.UseSnapshots
      && (cfg.Options.Snapshot.Frequency == "" || cfg.Options.Snapshot.Keep == 0) then
    some (Error.Errorf "Snapshots are configured but cannot be used due to blank settings")
  else
    none

/-! ## The merge engine (`mergeOpts`)

`mergeOpts` is called by `CreateVolume` (volume.go:47) and by `TestMerge`
(merge_test.go:14); the file that defines it is not among the sources. It is
modelled from section 4.1 of the specification and from the `merge` tags of
`VolumeOptions` and `SnapshotConfig` (volume.go:20-28). -/

/-- The override map, a Go `map[string]string`: the value bound to a key is
`List.lookup key opts`. -/
abbrev Opts := List (String × String)

/-- The fields of `VolumeOptions` that carry a `merge` tag, `Snapshot`
followed into `SnapshotConfig`. -/
inductive Field where
  | Size
  | UseSnapshots
  | SnapshotFrequency
  | SnapshotKeep
  deriving DecidableEq, Repr

/-- Modelled from the spec: the flat mapping from dotted key to field that the
walk of the field tree of `VolumeOptions` produces (`mergeOpts` and its
reflection helpers are missing from the sources). The keys are the `merge`
tags of volume.go:20-28, in depth-first order; `Snapshot` has no tag of its own
and gives its fields no prefix. -/
def mergeFields : List (String × Field) :=
  [("size", Field.Size),
   ("snapshots", Field.UseSnapshots),
   ("snapshots.frequency", Field.SnapshotFrequency),
   ("snapshots.keep", Field.SnapshotKeep)]

/-- The recognized dotted keys. -/
def mergeKeys : List String := mergeFields.map Prod.fst

/-- Modelled from the spec: the parser of an unsigned integer field
("decimal digits for unsigned integers"), for the 64 bit fields `Size` and
`Keep`; the parser itself is missing from the sources. -/
def parseUint (s : String) : Option Nat :=
  if s.data = [] then none
  else if s.data.all Char.isDigit then
    let n := s.data.foldl (fun acc c => 10 * acc + (c.toNat - 48)) 0
    if n < 2 ^ 64 then some n else none
  else none

/-- Modelled from the spec: the parser of a boolean field ("true"/"false" for
boolean); the parser itself is missing from the sources. -/
def parseBool (s : String) : Option Bool :=
  if s = "true" then some true
  else if s = "false" then some false
  else none

/-- Modelled from the spec: the assignment of one override to the field it
names, after parsing the string into the type of the field; `none` when the
value does not parse (the setter is missing from the sources). -/
def Field.assign (f : Field) (v : VolumeOptions) (s : String) : Option VolumeOptions :=
  match f with
  | Field.Size => (parseUint s).map fun n => { v with Size := n }
  | Field.UseSnapshots => (parseBool s).map fun b => { v with UseSnapshots := b }
  | Field.SnapshotFrequency => some { v with Snapshot := { v.Snapshot with Frequency := s } }
  | Field.SnapshotKeep =>
    (parseUint s).map fun n => { v with Snapshot := { v.Snapshot with Keep := n } }

/-- Modelled from the spec: the overrides applied to a scratch copy, one
discovered field after the other; a key of the map that is no field path is
never looked at. Fails at the first value that does not parse (missing from
the sources like `mergeOpts`). -/
def mergeInto : List (String × Field) → Opts → VolumeOptions → Except Error VolumeOptions
  | [], _, v => Except.ok v
  | (key, f) :: rest, opts, v =>
    match opts.lookup key with
    | none => mergeInto rest opts v
    | some s =>
      match f.assign v s with
      | none => Except.error (Error.MergeError key s)
      | some v' => mergeInto rest opts v'

/-- Modelled from the spec: `mergeOpts(&v, opts)`, missing from the sources.
The result is the target after the call and the error returned. The overrides
are applied to a scratch copy which replaces the target on success only. -/
def mergeOpts (v : VolumeOptions) (opts : Opts) : VolumeOptions × Option Error :=
  match mergeInto mergeFields opts v with
  | Except.ok v' => (v', none)
  | Except.error err => (v, some err)

/-- The value a field gets from the override bound to its key: the parsed
override when the key is bound, the value `d` the target has otherwise; `none`
when the override does not parse. -/
def overrideOr {α : Type} (parse : String → Option α) (o : Option String) (d : α) :
    Option α :=
  match o with
  | none => some d
  | some s => parse s

/-- The override map of `TestMerge` (merge_test.go:7-12). -/
def testMergeOpts : Opts :=
  [("size", "10"), ("snapshots", "false"), ("snapshots.frequency", "10m"),
   ("snapshots.keep", "20")]

/-! ## JSON documents (`encoding/json`)

`CreateVolume` stores `json.Marshal(vc)` and `GetVolume` and `ListVolumes`
decode with `json.Unmarshal`. The standard library is modelled at the level
of documents: which members an encoded struct has and which members a struct
is decoded from. The concrete syntax of the text (white space, escapes) is
not modelled. -/

/-- A JSON document. A number is an integer literal, the only kind of number
the structs of this package encode to. -/
inductive JSON where
  | null
  | bool (b : Bool)
  | number (n : Int)
  | string (s : String)
  | array (elems : List JSON)
  | object (members : List (String × JSON))

/-- A field of a Go struct as `encoding/json` sees it: the name of the field,
the name given by its `json` tag, the encoding of the field, and the decoding
of a document into the field. -/
structure JSONField (α : Type) where
  name : String
  tag : String
  get : α → JSON
  set : α → JSON → Except Error α

/-- The fields `encoding/json` encodes and decodes. All fields of the structs
at hand are tagged and at the same depth; when several fields at the same
depth are tagged with the same name, the library takes none of them and
reports no error, so a field is kept when no other field has its tag. -/
def dominantFields {α : Type} (fields : List (JSONField α)) : List (JSONField α) :=
  fields.filter fun f => (fields.filter fun g => g.tag == f.tag).length == 1

/-- The document `json.Marshal` makes of a struct: an object with one member
for each field the library takes, in the order of the fields. -/
def marshalStruct {α : Type} (fields : List (JSONField α)) (a : α) : JSON :=
  JSON.object ((dominantFields fields).map fun f => (f.tag, f.get a))

/-- The code a character is compared by when names are compared without
regard to case: an upper case letter `A` to `Z` has the code of its lower
case letter, the long s `U+017F` the code of `s`, the Kelvin sign `U+212A` the
code of `k`, the only characters that fold to a letter of the tags at hand,
and every other character its own code. -/
def foldCode (c : Char) : Nat :=
  if 65 ≤ c.toNat ∧ c.toNat ≤ 90 then c.toNat + 32
  else if c.toNat = 0x17F then 115
  else if c.toNat = 0x212A then 107
  else c.toNat

/-- The comparison of a tag with a member name without regard to case, the
`equalFold` of `encoding/json`. -/
def equalFold (tag key : String) : Bool :=
  tag.data.map foldCode == key.data.map foldCode

/-- The field `json.Unmarshal` decodes a member into: the field whose tag is
the name of the member, or else the first field whose tag is the name without
regard to case. -/
def fieldFor {α : Type} (fields : List (JSONField α)) (key : String) :
    Option (JSONField α) :=
  match (dominantFields fields).find? fun f => f.tag == key with
  | some f => some f
  | none => (dominantFields fields).find? fun f => equalFold f.tag key

/-- The decoding of a document into a struct by `json.Unmarshal`: `null`
leaves the struct as it is; the members of an object are decoded one after the
other, each into the field the library takes for its name, and a member that
names no such field is skipped; any other document is a type error. -/
def unmarshalStruct {α : Type} (fields : List (JSONField α)) (a : α) : JSON → Except Error α
  | JSON.null => Except.ok a
  | JSON.object members =>
    members.foldlM
      (fun acc member =>
        match fieldFor fields member.1 with
        | none => Except.ok acc
        | some f => f.set acc member.2)
      a
  | _ => Except.error (Error.Unmarshal "cannot unmarshal into Go value of type struct")

/-- The decoding of a document into a `uint64` or `uint` (64 bit) variable. -/
def unmarshalUint (cur : Nat) : JSON → Except Error Nat
  | JSON.null => Except.ok cur
  | JSON.number n =>
    if 0 ≤ n ∧ n.toNat < 2 ^ 64 then Except.ok n.toNat
    else Except.error (Error.Unmarshal "cannot unmarshal number into Go value of type uint64")
  | _ => Except.error (Error.Unmarshal "cannot unmarshal into Go value of type uint64")

/-- The decoding of a document into a `bool` variable. -/
def unmarshalBool (cur : Bool) : JSON → Except Error Bool
  | JSON.null => Except.ok cur
  | JSON.bool b => Except.ok b
  | _ => Except.error (Error.Unmarshal "cannot unmarshal into Go value of type bool")

/-- The decoding of a document into a `string` variable. -/
def unmarshalString (cur : String) : JSON → Except Error String
  | JSON.null => Except.ok cur
  | JSON.string s => Except.ok s
  | _ => Except.error (Error.Unmarshal "cannot unmarshal into Go value of type string")

/-- The fields of `SnapshotConfig` with their `json` tags (volume.go:27-28). -/
def SnapshotConfig.jsonFields : List (JSONField SnapshotConfig) :=
  [{ name := "Frequency", tag := "frequency",
     get := fun c => JSON.string c.Frequency,
     set := fun c j => (unmarshalString c.Frequency j).map fun s => { c with Frequency := s } },
   { name := "Keep", tag := "keep",
     get := fun c => JSON.number c.Keep,
     set := fun c j => (unmarshalUint c.Keep j).map fun n => { c with Keep := n } }]

/-- The fields of `VolumeOptions` with their `json` tags (volume.go:20-22). -/
def VolumeOptions.jsonFields : List (JSONField VolumeOptions) :=
  [{ name := "Size", tag := "size",
     get := fun o => JSON.number o.Size,
     set := fun o j => (unmarshalUint o.Size j).map fun n => { o with Size := n } },
   { name := "UseSnapshots", tag := "snapshots",
     get := fun o => JSON.bool o.UseSnapshots,
     set := fun o j => (unmarshalBool o.UseSnapshots j).map fun b => { o with UseSnapshots := b } },
   { name := "Snapshot", tag := "snapshot",
     get := fun o => marshalStruct SnapshotConfig.jsonFields o.Snapshot,
     set := fun o j =>
       (unmarshalStruct SnapshotConfig.jsonFields o.Snapshot j).map fun c =>
         { o with Snapshot := c } }]

/-- The fields of `VolumeConfig` with their `json` tags (volume.go:12-15):
`Name` and `VolumeName` are both tagged `name`. -/
def VolumeConfig.jsonFields : List (JSONField VolumeConfig) :=
  [{ name := "Name", tag := "name",
     get := fun vc => JSON.string vc.Name,
     set := fun vc j => (unmarshalString vc.Name j).map fun s => { vc with Name := s } },
   { name := "Pool", tag := "pool",
     get := fun vc => JSON.string vc.Pool,
     set := fun vc j => (unmarshalString vc.Pool j).map fun s => { vc with Pool := s } },
   { name := "VolumeName", tag := "name",
     get := fun vc => JSON.string vc.VolumeName,
     set := fun vc j =>
       (unmarshalString vc.VolumeName j).map fun s => { vc with VolumeName := s } },
   { name := "Options", tag := "options",
     get := fun vc => marshalStruct VolumeOptions.jsonFields vc.Options,
     set := fun vc j =>
       (unmarshalStruct VolumeOptions.jsonFields vc.Options j).map fun o =>
         { vc with Options := o } }]

/-- The text of a value of the store. A text that is a JSON document is
represented by the document; `text s` is a text that is no JSON document, the
empty string among them. -/
inductive Value where
  | text (s : String)
  | doc (d : JSON)

/-- The test `node.Value == ""`. -/
def Value.isEmpty : Value → Bool
  | Value.text s => s == ""
  | Value.doc _ => false

/-- The call `json.Marshal(vc)` for a `VolumeConfig`; it cannot fail for this
type. -/
def jsonMarshal (vc : VolumeConfig) : Value :=
  Value.doc (marshalStruct VolumeConfig.jsonFields vc)

/-- The call `json.Unmarshal([]byte(value), ret)` for `ret *VolumeConfig`: the
decoded struct, or the error. A text that is no JSON document is a syntax
error. -/
def jsonUnmarshal (value : Value) (ret : VolumeConfig) : Except Error VolumeConfig :=
  match value with
  | Value.text _ => Except.error (Error.Unmarshal "invalid JSON input")
  | Value.doc d => unmarshalStruct VolumeConfig.jsonFields ret d

/-! ## The store (etcd client)

The store is outside the repository. It is modelled by its files, a finite
map from key to value; directories are the proper prefixes of the keys at the
`/` separators, as in etcd. -/

/-- A node of a response of the store: its key, its value (empty for a
directory), whether it is a directory, and its child nodes. -/
inductive Node where
  | mk (Key : String) (Value : Value) (Dir : Bool) (Nodes : List Node)

/-- The field `Key` of a node. -/
def Node.Key : Node → String
  | Node.mk k _ _ _ => k

/-- The field `Value` of a node. -/
def Node.Value : Node → Value
  | Node.mk _ v _ _ => v

/-- The field `Dir` of a node. -/
def Node.Dir : Node → Bool
  | Node.mk _ _ d _ => d

/-- The field `Nodes` of a node. -/
def Node.Nodes : Node → List Node
  | Node.mk _ _ _ ns => ns

/-- The response of the store to a request. -/
structure Response where
  Node : Node

/-- The assignment `m[key] = value` on a Go map kept as a list of bindings: the
binding of the key is replaced, or a new one is added at the end. -/
def mapSet {β : Type} : List (String × β) → String → β → List (String × β)
  | [], key, value => [(key, value)]
  | (k, w) :: rest, key, value =>
    if k = key then (key, value) :: rest else (k, w) :: mapSet rest key value

/-- The files of the store. -/
abbrev Store := List (String × Value)

/-- Whether `key` lies below the directory `dir`: it starts with `dir` and a
slash. -/
def isBelow (dir key : String) : Bool :=
  (dir.data ++ ['/']).isPrefixOf key.data

/-- The key of the child of `dir` on the way to `key`, when `key` lies below
`dir`. -/
def childKey (dir key : String) : Option String :=
  if isBelow dir key then
    some ⟨dir.data ++ '/' :: (key.data.drop (dir.data.length + 1)).takeWhile (· != '/')⟩
  else none

/-- A list of keys without repetitions, first occurrences kept. -/
def dedupKeys : List String → List String
  | [] => []
  | k :: ks => k :: (dedupKeys ks).filter (· != k)

/-- The order of the keys: the lexicographic order of their characters. -/
def keyLess : List Char → List Char → Bool
  | _, [] => false
  | [], _ :: _ => true
  | a :: as, b :: bs => decide (a.toNat < b.toNat) || (a == b && keyLess as bs)

/-- Insertion of a key into a sorted list of keys. -/
def insertKey (k : String) : List String → List String
  | [] => [k]
  | x :: xs => if keyLess k.data x.data then k :: x :: xs else x :: insertKey k xs

/-- The keys of the children of the directory `dir`, sorted when asked. -/
def Store.childKeys (s : Store) (dir : String) (sort : Bool) : List String :=
  let keys := dedupKeys (s.filterMap fun e => childKey dir e.1)
  if sort then keys.foldr insertKey [] else keys

/-- The child nodes of the directory `dir`; the children of a child directory
are listed for a recursive request only. The first argument bounds the depth
of the listing. -/
def Store.nodes (s : Store) (sort recursive : Bool) : Nat → String → List Node
  | 0, _ => []
  | depth + 1, dir =>
    (s.childKeys dir sort).map fun k =>
      match s.lookup k with
      | some v => Node.mk k v false []
      | none => Node.mk k (Value.text "") true
          (if recursive then Store.nodes s sort recursive depth k else [])

/-- A depth the listing of the store cannot exceed. -/
def Store.depth (s : Store) : Nat :=
  (s.map fun e => e.1.data.length).foldr max 0 + 1

/-- The request `etcdClient.Get(key, sort, recursive)`: the file at the key, or
the directory at the key with its children, or the error that the key is not
found. -/
def Store.Get (s : Store) (key : String) (sort recursive : Bool) : Except Error Response :=
  match s.lookup key with
  | some v => Except.ok { Node := Node.mk key v false [] }
  | none =>
    if s.any fun e => isBelow key e.1 then
      Except.ok { Node := Node.mk key (Value.text "") true (s.nodes sort recursive s.depth key) }
    else Except.error (Error.KeyNotFound key)

/-- The request `etcdClient.Set(key, value, ttl)`: the store after the request,
or the error. A directory cannot get a value and a file cannot get children.
A time to live of 0, the only one used here, means that the value does not
expire. -/
def Store.Set (s : Store) (key : String) (value : Value) (_ttl : Nat) : Except Error Store :=
  if s.any fun e => isBelow key e.1 then Except.error (Error.NotFile key)
  else if s.any fun e => isBelow e.1 key then Except.error (Error.NotDir key)
  else Except.ok (mapSet s key value)

/-! ## The configuration repository (volume.go, lines 31-138) -/

/-- The receiver of the operations: the client of the store, here the state of
the store it talks to, and the root of the keys of this installation. -/
structure TopLevelConfig where
  etcdClient : Store
  root : String

/-- Modelled from the spec: the configuration of a tenant, whose declaration
is missing from the sources; it holds the default `VolumeOptions` of the
tenant, the only field `CreateVolume` reads. -/
structure TenantConfig where
  DefaultVolumeOptions : VolumeOptions

/-- Modelled from the spec: the name of the volume namespace under the root
(the constant is missing from the sources; documents are kept under
`root/volume/<pool>/<name>`). -/
def rootVolume : String := "volume"

/-- Modelled from the spec: `c.prefixed(strs...)`, missing from the sources; the
key derivation is a pure string join of the root and the path segments with
`/`, with no escaping. -/
def TopLevelConfig.prefixed (c : TopLevelConfig) (strs : List String) : String :=
  strs.foldl (fun key str => key ++ "/" ++ str) c.root

/-- The key of a volume (volume.go:31). -/
def TopLevelConfig.volume (c : TopLevelConfig) (pool name : String) : String :=
  c.prefixed [rootVolume, pool, name]

/-- GetVolume returns the VolumeConfig for a given volume (volume.go:71). -/
def TopLevelConfig.GetVolume (c : TopLevelConfig) (pool name : String) :
    Except Error VolumeConfig :=
  match c.etcdClient.Get (c.volume pool name) true false with
  | Except.error err => Except.error err
  | Except.ok resp => jsonUnmarshal resp.Node.Value VolumeConfig.zero

/-- CreateVolume sets the appropriate config metadata for a volume creation
operation, and returns the VolumeConfig that was copied in (volume.go:37).
The result is the pair `(*VolumeConfig, error)` that is returned and the
receiver after the call. `GetTenant`, missing from the sources, is a
parameter: a lookup that reads the store and does not write it. The first
call passes `name` and `pool` to `GetVolume` in this order, as line 38 does. -/
def TopLevelConfig.CreateVolume
    (GetTenant : TopLevelConfig → String → Except Error TenantConfig)
    (c : TopLevelConfig) (name tenant pool : String) (opts : Opts) :
    (Option VolumeConfig × Option Error) × TopLevelConfig :=
  match c.GetVolume name pool with
  | Except.ok tc => ((some tc, some Error.ErrExist), c)
  | Except.error _ =>
    match GetTenant c tenant with
    | Except.error err => ((none, some err), c)
    | Except.ok resp =>
      match mergeOpts resp.DefaultVolumeOptions opts with
      | (_, some err) => ((none, some err), c)
      | (merged, none) =>
        let vc : VolumeConfig :=
          { Name := name, Options := merged, VolumeName := name, Pool := pool }
        let remarshal := jsonMarshal vc
        match c.etcdClient.Set (c.volume pool name) remarshal 0 with
        | Except.error err => ((none, some err), c)
        | Except.ok store => ((some vc, none), { c with etcdClient := store })

/-- The function `strings.TrimPrefix(s, prefix)`. -/
def TrimPrefix (s pre : String) : String :=
  if pre.data.isPrefixOf s.data then ⟨s.data.drop pre.data.length⟩ else s

/-- The slice expression `key[1:]`, which panics on the empty string. The
first byte of the keys looked at here is the slash, so that the first byte is
the first character. -/
def sliceFrom1 (key : String) : Except Error String :=
  match key.data with
  | [] => Except.error Error.Panic
  | _ :: rest => Except.ok ⟨rest⟩

/-- ListVolumes returns a map of volume name -> VolumeConfig (volume.go:93). -/
def TopLevelConfig.ListVolumes (c : TopLevelConfig) (pool : String) :
    Except Error (List (String × VolumeConfig)) :=
  let poolPath := c.prefixed [rootVolume, pool]
  match c.etcdClient.Get poolPath true true with
  | Except.error err => Except.error err
  | Except.ok resp =>
    resp.Node.Nodes.foldlM
      (fun configs node =>
        if node.Value.isEmpty then Except.ok configs
        else
          match jsonUnmarshal node.Value VolumeConfig.zero with
          | Except.error err => Except.error err
          | Except.ok config =>
            match sliceFrom1 (TrimPrefix node.Key poolPath) with
            | Except.error err => Except.error err
            | Except.ok name => Except.ok (mapSet configs name config))
      []

/-- ListPools returns an array with all the named pools the volmaster knows
about (volume.go:123). -/
def TopLevelConfig.ListPools (c : TopLevelConfig) : Except Error (List String) :=
  match c.etcdClient.Get (c.prefixed [rootVolume]) true true with
  | Except.error err => Except.error err
  | Except.ok resp =>
    resp.Node.Nodes.foldlM
      (fun ret node =>
        match sliceFrom1 (TrimPrefix node.Key (c.prefixed [rootVolume])) with
        | Except.error err => Except.error err
        | Except.ok pool => Except.ok (ret ++ [pool]))
      []

/-! ## Definitions used to state the properties -/

/-- The entries the children `(name, value)` of a pool stand for: a child with
an empty value stands for none, a child whose value decodes stands for its
name and the decoded configuration. -/
def liveEntries (kids : List (String × Value)) : List (String × VolumeConfig) :=
  kids.filterMap fun kid =>
    if kid.2.isEmpty then none
    else
      match jsonUnmarshal kid.2 VolumeConfig.zero with
      | Except.ok config => some (kid.1, config)
      | Except.error _ => none

/-! ## Example states -/

/-- A volume configuration of 10 units with snapshots. -/
def exampleVolume : VolumeConfig :=
  { Name := "vol1", Pool := "pool1", VolumeName := "vol1",
    Options := { Size := 10, UseSnapshots := true, Snapshot := { Frequency := "1h", Keep := 3 } } }

/-- A tenant lookup: the tenant `tenant1` has the default options of size 20
without snapshots, no other tenant is known. -/
def exampleGetTenant (_c : TopLevelConfig) (tenant : String) : Except Error TenantConfig :=
  if tenant = "tenant1" then
    Except.ok { DefaultVolumeOptions :=
      { Size := 20, UseSnapshots := false, Snapshot := { Frequency := "", Keep := 0 } } }
  else Except.error (Error.KeyNotFound tenant)

/-- The configuration `CreateVolume` makes of the volume `vol1` of the pool
`pool1` from the defaults of `tenant1` and no overrides. -/
def createdVolume : VolumeConfig :=
  { Name := "vol1", Pool := "pool1", VolumeName := "vol1",
    Options := { Size := 20, UseSnapshots := false, Snapshot := { Frequency := "", Keep := 0 } } }

/-- A store in which `exampleVolume` is stored at the key of
`(pool1, vol1)`. -/
def exampleConfig : TopLevelConfig :=
  { etcdClient := [("/volplugin/volume/pool1/vol1", jsonMarshal exampleVolume)],
    root := "/volplugin" }

/-- An empty store. -/
def emptyConfig : TopLevelConfig :=
  { etcdClient := [], root := "/volplugin" }

/-- A store with the pool `pool1`, which has an empty-valued child `dead` and
the live volume `vol1`, and the pool `pool2` with a volume `vol2`. -/
def poolConfig : TopLevelConfig :=
  { etcdClient :=
      [("/volplugin/volume/pool1/vol1", jsonMarshal exampleVolume),
       ("/volplugin/volume/pool1/dead", Value.text ""),
       ("/volplugin/volume/pool2/vol2", jsonMarshal exampleVolume)],
    root := "/volplugin" }

/-- A store with the pool `pool1`, which has the live volume `vol1` and a
child `bad` whose value is not empty and is no JSON document. -/
def badPoolConfig : TopLevelConfig :=
  { etcdClient :=
      [("/volplugin/volume/pool1/vol1", jsonMarshal exampleVolume),
       ("/volplugin/volume/pool1/bad", Value.text "not json")],
    root := "/volplugin" }

/-- A document with the member `POOL`, a number. -/
def upperCaseDocument : Value :=
  Value.doc (JSON.object [("POOL", JSON.number 5)])

/-! ## Theorems -/

/-- C1: `Validate` returns no error exactly when `Size` is nonzero and
snapshots are either off or have both a frequency and a nonzero keep count; a
configuration of size zero is always rejected; and two configurations with the
same `Options` get the same result, whatever `Name`, `Pool` and `VolumeName`
are. -/
theorem Validate_spec :
    (∀ cfg : VolumeConfig,
      cfg.Validate = none ↔
        (cfg.Options.Size ≠ 0 ∧
          (cfg.Options.UseSnapshots = false ∨
            (cfg.Options.Snapshot.Frequency ≠ "" ∧ cfg.Options.Snapshot.Keep ≠ 0)))) ∧
    (∀ cfg : VolumeConfig, cfg.Options.Size = 0 → cfg.Validate ≠ none) ∧
    (∀ (n p v n' p' v' : String) (o : VolumeOptions),
      VolumeConfig.Validate { Name := n, Pool := p, VolumeName := v, Options := o } =
        VolumeConfig.Validate { Name := n', Pool := p', VolumeName := v', Options := o }) := by
  refine ⟨?_, ?_, ?_⟩
  · intro cfg
    unfold VolumeConfig.Validate
    by_cases hs : cfg.Options.Size = 0
    · simp [hs]
    · cases hu : cfg.Options.UseSnapshots <;> simp [hs]
  · intro cfg hs
    simp [VolumeConfig.Validate, hs]
  · intro n p v n' p' v' o
    rfl

/-- The merge over the four tagged fields in closed form. -/
theorem mergeInto_mergeFields (v : VolumeOptions) (opts : Opts) :
    (mergeInto mergeFields opts v).toOption =
      (overrideOr parseUint (opts.lookup "size") v.Size).bind fun a =>
      (overrideOr parseBool (opts.lookup "snapshots") v.UseSnapshots).bind fun b =>
      (overrideOr some (opts.lookup "snapshots.frequency") v.Snapshot.Frequency).bind fun c =>
      (overrideOr parseUint (opts.lookup "snapshots.keep") v.Snapshot.Keep).bind fun d =>
      some { Size := a, UseSnapshots := b, Snapshot := { Frequency := c, Keep := d } } := by
  simp only [mergeFields, mergeInto, Field.assign, overrideOr]
  rcases opts.lookup "size" with _ | s1 <;>
    rcases opts.lookup "snapshots" with _ | s2 <;>
    rcases opts.lookup "snapshots.frequency" with _ | s3 <;>
    rcases opts.lookup "snapshots.keep" with _ | s4 <;>
    simp only [Option.bind, Option.map, Except.toOption] <;>
    (try cases parseUint s1) <;> (try simp only []) <;>
    (try cases parseBool s2) <;> (try simp only []) <;>
    (try cases parseUint s4) <;> rfl

/-- On success `mergeOpts` returns the merged scratch copy. -/
theorem mergeOpts_of_some (v v' : VolumeOptions) (opts : Opts)
    (h : (mergeInto mergeFields opts v).toOption = some v') :
    mergeOpts v opts = (v', none) := by
  unfold mergeOpts
  cases hm : mergeInto mergeFields opts v with
  | error e => rw [hm] at h; simp [Except.toOption] at h
  | ok w => rw [hm] at h; simp [Except.toOption] at h; simp [h]

/-- On failure `mergeOpts` returns the target as it was, with an error. -/
theorem mergeOpts_of_none (v : VolumeOptions) (opts : Opts)
    (h : (mergeInto mergeFields opts v).toOption = none) :
    (mergeOpts v opts).1 = v ∧ (mergeOpts v opts).2 ≠ none := by
  unfold mergeOpts
  cases hm : mergeInto mergeFields opts v with
  | error e => simp
  | ok w => rw [hm] at h; simp [Except.toOption] at h

/-- A successful `mergeOpts` comes from a successful merge into the copy. -/
theorem mergeInto_of_mergeOpts_ok (v : VolumeOptions) (opts : Opts)
    (hok : (mergeOpts v opts).2 = none) :
    (mergeInto mergeFields opts v).toOption = some (mergeOpts v opts).1 := by
  revert hok
  unfold mergeOpts
  cases hm : mergeInto mergeFields opts v with
  | error e => simp
  | ok w => simp [Except.toOption]

/-- The merge looks at the override map through the keys of the fields only. -/
theorem mergeInto_congr (fields : List (String × Field)) (opts opts' : Opts)
    (h : ∀ k ∈ fields.map Prod.fst, opts'.lookup k = opts.lookup k) (v : VolumeOptions) :
    mergeInto fields opts' v = mergeInto fields opts v := by
  induction fields generalizing v with
  | nil => rfl
  | cons kf rest ih =>
    obtain ⟨key, f⟩ := kf
    have hkey : opts'.lookup key = opts.lookup key := h key (by simp)
    have hrest : ∀ k ∈ rest.map Prod.fst, opts'.lookup k = opts.lookup k :=
      fun k hk => h k (by simp only [List.map_cons, List.mem_cons]; exact Or.inr hk)
    simp only [mergeInto, hkey]
    cases opts.lookup key with
    | none => exact ih hrest v
    | some s =>
      simp only []
      cases f.assign v s with
      | none => rfl
      | some w => exact ih hrest w

/-- A map none of whose keys is a field path binds no field path. -/
theorem lookup_unrecognized (extra : Opts) (h : ∀ p ∈ extra, p.1 ∉ mergeKeys)
    (k : String) (hk : k ∈ mergeKeys) : extra.lookup k = none := by
  rw [List.lookup_eq_none_iff]
  intro p hp
  have hne : p.1 ≠ k := fun e => h p hp (e ▸ hk)
  simpa [bne_iff_ne] using fun e : k = p.1 => hne e.symm

/-- After a successful `mergeOpts` on a target `v`, each of `Size`, `UseSnapshots`, `Snapshot.Frequency` and
`Snapshot.Keep` whose dotted key is not bound by the override map keeps the
value it had in `v`, and each field whose key is bound holds the parsed
override. -/
theorem mergeOpts_fields_of_ok (v : VolumeOptions) (opts : Opts)
    (hok : (mergeOpts v opts).2 = none) :
    (opts.lookup "size" = none → (mergeOpts v opts).1.Size = v.Size) ∧
    (∀ s, opts.lookup "size" = some s → parseUint s = some (mergeOpts v opts).1.Size) ∧
    (opts.lookup "snapshots" = none →
      (mergeOpts v opts).1.UseSnapshots = v.UseSnapshots) ∧
    (∀ s, opts.lookup "snapshots" = some s →
      parseBool s = some (mergeOpts v opts).1.UseSnapshots) ∧
    (opts.lookup "snapshots.frequency" = none →
      (mergeOpts v opts).1.Snapshot.Frequency = v.Snapshot.Frequency) ∧
    (∀ s, opts.lookup "snapshots.frequency" = some s →
      (mergeOpts v opts).1.Snapshot.Frequency = s) ∧
    (opts.lookup "snapshots.keep" = none →
      (mergeOpts v opts).1.Snapshot.Keep = v.Snapshot.Keep) ∧
    (∀ s, opts.lookup "snapshots.keep" = some s →
      parseUint s = some (mergeOpts v opts).1.Snapshot.Keep) := by
  have h := mergeInto_of_mergeOpts_ok v opts hok
  rw [mergeInto_mergeFields] at h
  generalize (mergeOpts v opts).1 = w at h
  simp only [Option.bind_eq_some] at h
  obtain ⟨a, ha, b, hb, c, hc, d, hd, hw⟩ := h
  simp only [Option.some.injEq] at hw
  subst hw
  refine ⟨?_, ?_, ?_, ?_, ?_, ?_, ?_, ?_⟩ <;> intro x <;>
    (try intro hx) <;> simp_all [overrideOr]

/-- The merge succeeds when every bound field path has a value that parses. -/
theorem mergeOpts_ok_of_parse (v : VolumeOptions) (opts : Opts)
    (hsize : ∀ s, opts.lookup "size" = some s → parseUint s ≠ none)
    (hsnap : ∀ s, opts.lookup "snapshots" = some s → parseBool s ≠ none)
    (hkeep : ∀ s, opts.lookup "snapshots.keep" = some s → parseUint s ≠ none) :
    (mergeOpts v opts).2 = none := by
  have hclosed := mergeInto_mergeFields v opts
  have key : ∃ w, (mergeInto mergeFields opts v).toOption = some w := by
    rw [hclosed]
    rcases h1 : opts.lookup "size" with _ | s1 <;>
      rcases h2 : opts.lookup "snapshots" with _ | s2 <;>
      rcases h3 : opts.lookup "snapshots.frequency" with _ | s3 <;>
      rcases h4 : opts.lookup "snapshots.keep" with _ | s4 <;>
      simp only [overrideOr, Option.bind] <;>
      (try (have hp1 := hsize s1 h1; rcases hq1 : parseUint s1 with _ | n1
            · exact absurd hq1 hp1)) <;>
      (try simp only []) <;>
      (try (have hp2 := hsnap s2 h2; rcases hq2 : parseBool s2 with _ | b2
            · exact absurd hq2 hp2)) <;>
      (try simp only []) <;>
      (try (have hp4 := hkeep s4 h4; rcases hq4 : parseUint s4 with _ | n4
            · exact absurd hq4 hp4)) <;>
      exact ⟨_, rfl⟩
  obtain ⟨w, hw⟩ := key
  rw [mergeOpts_of_some v w opts hw]

/-- The merge into the copy fails when a bound field path has a value that does
not parse. -/
theorem mergeInto_none_of_malformed (v : VolumeOptions) (opts : Opts)
    (hbad : (∃ s, opts.lookup "size" = some s ∧ parseUint s = none) ∨
      (∃ s, opts.lookup "snapshots" = some s ∧ parseBool s = none) ∨
      (∃ s, opts.lookup "snapshots.keep" = some s ∧ parseUint s = none)) :
    (mergeInto mergeFields opts v).toOption = none := by
  rw [mergeInto_mergeFields]
  rcases hbad with ⟨s, hl, hp⟩ | ⟨s, hl, hp⟩ | ⟨s, hl, hp⟩
  · simp [hl, overrideOr, hp]
  · simp only [hl, overrideOr, hp]
    cases overrideOr parseUint (opts.lookup "size") v.Size <;> simp [overrideOr]
  · simp only [hl, overrideOr, hp]
    cases overrideOr parseUint (opts.lookup "size") v.Size <;>
      cases overrideOr parseBool (opts.lookup "snapshots") v.UseSnapshots <;>
      cases opts.lookup "snapshots.frequency" <;> simp [overrideOr]

/-- C3: for an override map whose keys are all recognized dotted keys and whose
values all parse for the type of their field, `mergeOpts` on the zero-valued
`VolumeOptions` returns no error, each field whose key is bound holds the
parsed value, and every other field is still zero. -/
theorem mergeOpts_zero_sets_exactly (opts : Opts)
    (_hkeys : ∀ p ∈ opts, p.1 ∈ mergeKeys)
    (hsize : ∀ s, opts.lookup "size" = some s → parseUint s ≠ none)
    (hsnap : ∀ s, opts.lookup "snapshots" = some s → parseBool s ≠ none)
    (hkeep : ∀ s, opts.lookup "snapshots.keep" = some s → parseUint s ≠ none) :
    (mergeOpts VolumeOptions.zero opts).2 = none ∧
    (opts.lookup "size" = none → (mergeOpts VolumeOptions.zero opts).1.Size = 0) ∧
    (∀ s, opts.lookup "size" = some s →
      parseUint s = some (mergeOpts VolumeOptions.zero opts).1.Size) ∧
    (opts.lookup "snapshots" = none →
      (mergeOpts VolumeOptions.zero opts).1.UseSnapshots = false) ∧
    (∀ s, opts.lookup "snapshots" = some s →
      parseBool s = some (mergeOpts VolumeOptions.zero opts).1.UseSnapshots) ∧
    (opts.lookup "snapshots.frequency" = none →
      (mergeOpts VolumeOptions.zero opts).1.Snapshot.Frequency = "") ∧
    (∀ s, opts.lookup "snapshots.frequency" = some s →
      (mergeOpts VolumeOptions.zero opts).1.Snapshot.Frequency = s) ∧
    (opts.lookup "snapshots.keep" = none →
      (mergeOpts VolumeOptions.zero opts).1.Snapshot.Keep = 0) ∧
    (∀ s, opts.lookup "snapshots.keep" = some s →
      parseUint s = some (mergeOpts VolumeOptions.zero opts).1.Snapshot.Keep) :=
  ⟨mergeOpts_ok_of_parse VolumeOptions.zero opts hsize hsnap hkeep,
    mergeOpts_fields_of_ok VolumeOptions.zero opts
      (mergeOpts_ok_of_parse VolumeOptions.zero opts hsize hsnap hkeep)⟩

/-- The example of C3 (`TestMerge`): the theorem at the override map
`size=10, snapshots=false, snapshots.frequency=10m, snapshots.keep=20`, which
gives `Size=10, UseSnapshots=false, Snapshot.Frequency="10m", Snapshot.Keep=20`. -/
theorem mergeOpts_zero_sets_exactly_witness :
    (mergeOpts VolumeOptions.zero testMergeOpts).2 = none ∧
    (mergeOpts VolumeOptions.zero testMergeOpts).1 =
      { Size := 10, UseSnapshots := false, Snapshot := { Frequency := "10m", Keep := 20 } } :=
  ⟨(mergeOpts_zero_sets_exactly testMergeOpts (by decide)
      (fun s h => by
        have e : testMergeOpts.lookup "size" = some "10" := by decide
        rw [e] at h; cases h; decide)
      (fun s h => by
        have e : testMergeOpts.lookup "snapshots" = some "false" := by decide
        rw [e] at h; cases h; decide)
      (fun s h => by
        have e : testMergeOpts.lookup "snapshots.keep" = some "20" := by decide
        rw [e] at h; cases h; decide)).1,
    by decide⟩

/-- C4: when the override map binds a recognized key to a value that does not
parse for the type of its field (`size` or `snapshots.keep` to something that
is no decimal unsigned integer, `snapshots` to something that is no boolean),
`mergeOpts` returns an error and the target is what it was before the call,
whatever the target and the other entries of the map are. -/
theorem mergeOpts_malformed_atomic (v : VolumeOptions) (opts : Opts)
    (hbad : (∃ s, opts.lookup "size" = some s ∧ parseUint s = none) ∨
      (∃ s, opts.lookup "snapshots" = some s ∧ parseBool s = none) ∨
      (∃ s, opts.lookup "snapshots.keep" = some s ∧ parseUint s = none)) :
    (mergeOpts v opts).2 ≠ none ∧ (mergeOpts v opts).1 = v :=
  ⟨(mergeOpts_of_none v opts (mergeInto_none_of_malformed v opts hbad)).2,
    (mergeOpts_of_none v opts (mergeInto_none_of_malformed v opts hbad)).1⟩

/-- C4 at a concrete input: `snapshots.keep=abc` after a good `size=10` on a
target of size 5 leaves the size at 5. -/
theorem mergeOpts_malformed_atomic_witness :
    (mergeOpts { Size := 5, UseSnapshots := true, Snapshot := { Frequency := "1h", Keep := 3 } }
        [("size", "10"), ("snapshots.keep", "abc")]).2 ≠ none ∧
    (mergeOpts { Size := 5, UseSnapshots := true, Snapshot := { Frequency := "1h", Keep := 3 } }
        [("size", "10"), ("snapshots.keep", "abc")]).1 =
      { Size := 5, UseSnapshots := true, Snapshot := { Frequency := "1h", Keep := 3 } } :=
  mergeOpts_malformed_atomic _ _ (Or.inr (Or.inr ⟨"abc", by decide, by decide⟩))

/-- C5: an override map none of whose keys is a recognized dotted key gives no
error and leaves the target as it was; adding such entries to a map, before
or after its entries, changes neither the error nor the resulting target; and
more generally two maps that bind the recognized keys alike give the same
result. -/
theorem mergeOpts_ignores_unknown_keys (v : VolumeOptions) (opts extra : Opts)
    (hextra : ∀ p ∈ extra, p.1 ∉ mergeKeys) :
    mergeOpts v extra = (v, none) ∧
    mergeOpts v (extra ++ opts) = mergeOpts v opts ∧
    mergeOpts v (opts ++ extra) = mergeOpts v opts ∧
    (∀ opts' : Opts, (∀ k ∈ mergeKeys, opts'.lookup k = opts.lookup k) →
      mergeOpts v opts' = mergeOpts v opts) := by
  have hnone := lookup_unrecognized extra hextra
  have hcongr : ∀ o o' : Opts, (∀ k ∈ mergeKeys, o'.lookup k = o.lookup k) →
      mergeOpts v o' = mergeOpts v o := by
    intro o o' h
    unfold mergeOpts
    rw [mergeInto_congr mergeFields o o' h v]
  refine ⟨?_, ?_, ?_, fun opts' h => hcongr opts opts' h⟩
  · have h0 : mergeOpts v extra = mergeOpts v [] :=
      hcongr [] extra (fun k hk => by simp [hnone k hk])
    rw [h0]
    rfl
  · exact hcongr opts (extra ++ opts)
      (fun k hk => by rw [List.lookup_append, hnone k hk]; rfl)
  · exact hcongr opts (opts ++ extra)
      (fun k hk => by rw [List.lookup_append, hnone k hk]; cases opts.lookup k <;> rfl)

/-- C5 at a concrete input: the unknown keys `filesystem` and `snapshot` around
`size=10`. -/
theorem mergeOpts_ignores_unknown_keys_witness :
    mergeOpts VolumeOptions.zero [("filesystem", "ext4"), ("snapshot", "true")] =
      (VolumeOptions.zero, none) ∧
    mergeOpts VolumeOptions.zero
        ([("filesystem", "ext4"), ("snapshot", "true")] ++ [("size", "10")]) =
      mergeOpts VolumeOptions.zero [("size", "10")] :=
  ⟨(mergeOpts_ignores_unknown_keys VolumeOptions.zero [("size", "10")]
      [("filesystem", "ext4"), ("snapshot", "true")] (by decide)).1,
    (mergeOpts_ignores_unknown_keys VolumeOptions.zero [("size", "10")]
      [("filesystem", "ext4"), ("snapshot", "true")] (by decide)).2.1⟩

/-- C6: when `mergeOpts` succeeds on a target `v` (any value, not only the zero
value), each of `Size`, `UseSnapshots`, `Snapshot.Frequency` and
`Snapshot.Keep` whose dotted key is not bound by the override map keeps the
value it had in `v`, and each field whose key is bound holds the parsed
override. -/
theorem mergeOpts_overwrites_only_present (v : VolumeOptions) (opts : Opts)
    (hok : (mergeOpts v opts).2 = none) :
    (opts.lookup "size" = none → (mergeOpts v opts).1.Size = v.Size) ∧
    (∀ s, opts.lookup "size" = some s → parseUint s = some (mergeOpts v opts).1.Size) ∧
    (opts.lookup "snapshots" = none →
      (mergeOpts v opts).1.UseSnapshots = v.UseSnapshots) ∧
    (∀ s, opts.lookup "snapshots" = some s →
      parseBool s = some (mergeOpts v opts).1.UseSnapshots) ∧
    (opts.lookup "snapshots.frequency" = none →
      (mergeOpts v opts).1.Snapshot.Frequency = v.Snapshot.Frequency) ∧
    (∀ s, opts.lookup "snapshots.frequency" = some s →
      (mergeOpts v opts).1.Snapshot.Frequency = s) ∧
    (opts.lookup "snapshots.keep" = none →
      (mergeOpts v opts).1.Snapshot.Keep = v.Snapshot.Keep) ∧
    (∀ s, opts.lookup "snapshots.keep" = some s →
      parseUint s = some (mergeOpts v opts).1.Snapshot.Keep) :=
  mergeOpts_fields_of_ok v opts hok

/-- C6 at a concrete input: `snapshots.keep=7` on a target with size 5 and
snapshots on. -/
theorem mergeOpts_overwrites_only_present_witness :
    (mergeOpts { Size := 5, UseSnapshots := true, Snapshot := { Frequency := "1h", Keep := 3 } }
        [("snapshots.keep", "7")]).1.Size = 5 :=
  (mergeOpts_overwrites_only_present
    { Size := 5, UseSnapshots := true, Snapshot := { Frequency := "1h", Keep := 3 } }
    [("snapshots.keep", "7")] (by decide)).1 (by decide)

/-- Trimming the directory from the key of a child leaves the slash and the
name of the child. -/
theorem TrimPrefix_child (dir name : String) :
    TrimPrefix (dir ++ "/" ++ name) dir = "/" ++ name := by
  have hd : (dir ++ "/" ++ name).data = dir.data ++ ('/' :: name.data) := by
    simp [String.data_append]
  have hp : dir.data.isPrefixOf (dir ++ "/" ++ name).data = true := by
    rw [hd, List.isPrefixOf_iff_prefix]
    exact List.prefix_append _ _
  unfold TrimPrefix
  rw [if_pos hp, hd, List.drop_left]
  rfl

/-- The slice `key[1:]` of a slash followed by a name is the name. -/
theorem sliceFrom1_slash (name : String) : sliceFrom1 ("/" ++ name) = Except.ok name := by
  have hd : ("/" ++ name).data = '/' :: name.data := by simp [String.data_append]
  unfold sliceFrom1
  rw [hd]

/-- The key of a child determines its name. -/
theorem child_key_injective (dir a b : String) (h : dir ++ "/" ++ a = dir ++ "/" ++ b) :
    a = b := by
  have hd := congrArg String.data h
  simp only [String.data_append, List.append_assoc, List.append_cancel_left_eq] at hd
  exact String.ext hd

/-- The loop of `ListPools` over children whose keys are `dir/pool`. -/
theorem ListPools_loop (dir : String) (nodes : List Node) (pools acc : List String)
    (hkeys : nodes.map Node.Key = pools.map fun pool => dir ++ "/" ++ pool) :
    nodes.foldlM
      (fun ret node =>
        match sliceFrom1 (TrimPrefix node.Key dir) with
        | Except.error err => Except.error err
        | Except.ok pool => Except.ok (ret ++ [pool]))
      acc = Except.ok (acc ++ pools) := by
  induction nodes generalizing pools acc with
  | nil =>
    cases pools with
    | nil => simp [pure, Except.pure]
    | cons p ps => simp at hkeys
  | cons node rest ih =>
    cases pools with
    | nil => simp at hkeys
    | cons p ps =>
      simp only [List.map_cons, List.cons.injEq] at hkeys
      obtain ⟨hk, hrest⟩ := hkeys
      simp only [List.foldlM_cons, hk, TrimPrefix_child, sliceFrom1_slash, bind, Except.bind]
      rw [ih ps (acc ++ [p]) hrest]
      simp

/-- C9: when the children of the node of the root volume namespace have the
keys `rootVolumePath/pool` for the pools of a list, `ListPools` returns the
pools of that list, in the order of the children; a pool is returned exactly
when a child directly under the root volume namespace has its key. -/
theorem ListPools_returns_children (c : TopLevelConfig) (resp : Response)
    (pools : List String)
    (hget : c.etcdClient.Get (c.prefixed [rootVolume]) true true = Except.ok resp)
    (hkeys : resp.Node.Nodes.map Node.Key =
      pools.map fun pool => c.prefixed [rootVolume] ++ "/" ++ pool) :
    c.ListPools = Except.ok pools ∧
    ∀ pool, pool ∈ pools ↔
      ∃ node ∈ resp.Node.Nodes, node.Key = c.prefixed [rootVolume] ++ "/" ++ pool := by
  constructor
  · unfold TopLevelConfig.ListPools
    rw [hget]
    simp only []
    rw [ListPools_loop (c.prefixed [rootVolume]) resp.Node.Nodes pools [] hkeys]
    rfl
  · intro pool
    constructor
    · intro hmem
      have hin : c.prefixed [rootVolume] ++ "/" ++ pool ∈ resp.Node.Nodes.map Node.Key := by
        rw [hkeys]
        exact List.mem_map.mpr ⟨pool, hmem, rfl⟩
      obtain ⟨node, hnode, hkey⟩ := List.mem_map.mp hin
      exact ⟨node, hnode, hkey⟩
    · rintro ⟨node, hnode, hkey⟩
      have hin : node.Key ∈ resp.Node.Nodes.map Node.Key := List.mem_map.mpr ⟨node, hnode, rfl⟩
      rw [hkeys] at hin
      obtain ⟨p, hp, hpk⟩ := List.mem_map.mp hin
      have : p = pool := child_key_injective _ _ _ (hpk.trans hkey)
      exact this ▸ hp

/-- C9 at a concrete store: the pools `pool1` and `pool2`. -/
theorem ListPools_returns_children_witness :
    poolConfig.ListPools = Except.ok ["pool1", "pool2"] :=
  (ListPools_returns_children poolConfig
    { Node := Node.mk "/volplugin/volume" (Value.text "") true
        (poolConfig.etcdClient.nodes true true poolConfig.etcdClient.depth "/volplugin/volume") }
    ["pool1", "pool2"] (by rfl) (by decide)).1

/-- Assigning to a key the map does not bind adds the binding at the end. -/
theorem mapSet_of_not_mem {β : Type} (m : List (String × β)) (key : String) (value : β)
    (h : key ∉ m.map Prod.fst) : mapSet m key value = m ++ [(key, value)] := by
  induction m with
  | nil => rfl
  | cons e rest ih =>
    obtain ⟨k, w⟩ := e
    simp only [List.map_cons, List.mem_cons, not_or] at h
    have hne : ¬ k = key := fun e => h.1 e.symm
    simp only [mapSet, if_neg hne, List.cons_append, ih h.2]

/-- The lookup of a key passes a binding of another key. -/
theorem lookup_cons_of_ne {β : Type} (rest : List (String × β)) (k a : String) (w : β)
    (h : ¬ k = a) : ((a, w) :: rest).lookup k = rest.lookup k := by
  have hb : (k == a) = false := by simpa using h
  rw [List.lookup_cons, hb]

/-- After an assignment the key is bound to the value and every other key is
bound as before. -/
theorem lookup_mapSet {β : Type} (m : List (String × β)) (key k : String) (value : β) :
    (mapSet m key value).lookup k = if k = key then some value else m.lookup k := by
  induction m with
  | nil =>
    by_cases hk : k = key
    · subst hk
      simp [mapSet]
    · simp only [mapSet, if_neg hk, lookup_cons_of_ne _ _ _ _ hk]
  | cons e rest ih =>
    obtain ⟨a, w⟩ := e
    by_cases ha : a = key
    · subst ha
      by_cases hk : k = a
      · subst hk
        simp [mapSet]
      · simp only [mapSet, if_true, if_neg hk, lookup_cons_of_ne _ _ _ _ hk]
    · by_cases hka : k = a
      · subst hka
        have hk : ¬ k = key := ha
        simp [mapSet, ha]
      · simp only [mapSet, if_neg ha, lookup_cons_of_ne _ _ _ _ hka, ih]

/-- The keys of the entries are the names of the children with a non-empty
value, when these values decode. -/
theorem liveEntries_keys (kids : List (String × Value))
    (hdec : ∀ kid ∈ kids, kid.2.isEmpty = false →
      ∃ config, jsonUnmarshal kid.2 VolumeConfig.zero = Except.ok config) :
    (liveEntries kids).map Prod.fst =
      (kids.filter fun kid => !kid.2.isEmpty).map Prod.fst := by
  induction kids with
  | nil => rfl
  | cons kid rest ih =>
    have ih' := ih (fun k hk => hdec k (List.mem_cons_of_mem _ hk))
    unfold liveEntries at ih' ⊢
    cases he : kid.2.isEmpty with
    | true => simp [List.filterMap_cons, List.filter_cons, he, ih']
    | false =>
      obtain ⟨config, hc⟩ := hdec kid (List.mem_cons_self _ _) he
      simp [List.filterMap_cons, List.filter_cons, he, hc, ih']

/-- The names of the entries are names of children. -/
theorem liveEntries_keys_subset (kids : List (String × Value)) (name : String)
    (h : name ∈ (liveEntries kids).map Prod.fst) : name ∈ kids.map Prod.fst := by
  obtain ⟨entry, hentry, hname⟩ := List.mem_map.mp h
  unfold liveEntries at hentry
  obtain ⟨kid, hkid, hsome⟩ := List.mem_filterMap.mp hentry
  refine List.mem_map.mpr ⟨kid, hkid, ?_⟩
  cases he : kid.2.isEmpty with
  | true => simp [he] at hsome
  | false =>
    cases hc : jsonUnmarshal kid.2 VolumeConfig.zero with
    | error e => simp [he, hc] at hsome
    | ok config =>
      simp [he, hc] at hsome
      rw [← hname, ← hsome]

/-- The loop of `ListVolumes` over children whose keys are `poolPath/name`,
with distinct names that the map does not bind yet. -/
theorem ListVolumes_loop (poolPath : String) (nodes : List Node)
    (kids : List (String × Value)) (acc : List (String × VolumeConfig))
    (hkeys : nodes.map (fun node => (node.Key, node.Value)) =
      kids.map fun kid => (poolPath ++ "/" ++ kid.1, kid.2))
    (hnodup : (kids.map Prod.fst).Nodup)
    (hfresh : ∀ name ∈ kids.map Prod.fst, name ∉ acc.map Prod.fst)
    (hdec : ∀ kid ∈ kids, kid.2.isEmpty = false →
      ∃ config, jsonUnmarshal kid.2 VolumeConfig.zero = Except.ok config) :
    nodes.foldlM
      (fun configs node =>
        if node.Value.isEmpty then Except.ok configs
        else
          match jsonUnmarshal node.Value VolumeConfig.zero with
          | Except.error err => Except.error err
          | Except.ok config =>
            match sliceFrom1 (TrimPrefix node.Key poolPath) with
            | Except.error err => Except.error err
            | Except.ok name => Except.ok (mapSet configs name config))
      acc = Except.ok (acc ++ liveEntries kids) := by
  induction nodes generalizing kids acc with
  | nil =>
    cases kids with
    | nil => simp [pure, Except.pure, liveEntries]
    | cons p ps => simp at hkeys
  | cons node rest ih =>
    cases kids with
    | nil => simp at hkeys
    | cons kid ks =>
      simp only [List.map_cons, List.cons.injEq, Prod.mk.injEq] at hkeys
      obtain ⟨⟨hk, hv⟩, hrest⟩ := hkeys
      simp only [List.map_cons, List.nodup_cons] at hnodup
      have hdec' : ∀ k ∈ ks, k.2.isEmpty = false →
          ∃ config, jsonUnmarshal k.2 VolumeConfig.zero = Except.ok config :=
        fun k hk => hdec k (List.mem_cons_of_mem _ hk)
      simp only [List.foldlM_cons, hk, hv, TrimPrefix_child, sliceFrom1_slash, bind, Except.bind]
      cases he : kid.2.isEmpty with
      | true =>
        simp only [if_true]
        rw [ih ks acc hrest hnodup.2
          (fun name hname => hfresh name (by simp only [List.map_cons]; exact List.mem_cons_of_mem _ hname))
          hdec']
        simp [liveEntries, List.filterMap_cons, he]
      | false =>
        obtain ⟨config, hc⟩ := hdec kid (List.mem_cons_self _ _) he
        have hnew : kid.1 ∉ acc.map Prod.fst := hfresh kid.1 (by simp)
        simp only [hc, Bool.false_eq_true, if_false, mapSet_of_not_mem acc kid.1 config hnew]
        rw [ih ks (acc ++ [(kid.1, config)]) hrest hnodup.2 ?_ hdec']
        · simp [liveEntries, List.filterMap_cons, he, hc]
        · intro name hname
          simp only [List.map_append, List.map_cons, List.map_nil, List.mem_append,
            List.mem_singleton, not_or]
          refine ⟨hfresh name (by simp only [List.map_cons]; exact List.mem_cons_of_mem _ hname), ?_⟩
          intro e
          exact hnodup.1 (e ▸ hname)

/-- In a map with distinct keys a binding of the list is the binding of its
key. -/
theorem lookup_of_mem_nodup {β : Type} (m : List (String × β)) (key : String) (value : β)
    (hnodup : (m.map Prod.fst).Nodup) (hmem : (key, value) ∈ m) :
    m.lookup key = some value := by
  induction m with
  | nil => simp at hmem
  | cons e rest ih =>
    obtain ⟨k, w⟩ := e
    simp only [List.map_cons, List.nodup_cons] at hnodup
    rcases List.mem_cons.mp hmem with heq | hin
    · simp only [Prod.mk.injEq] at heq
      obtain ⟨rfl, rfl⟩ := heq
      simp
    · have hne : ¬ key = k := by
        intro e
        exact hnodup.1 (e ▸ List.mem_map.mpr ⟨(key, value), hin, rfl⟩)
      rw [lookup_cons_of_ne _ _ _ _ hne]
      exact ih hnodup.2 hin

/-- A list of keys without repetitions has none. -/
theorem dedupKeys_nodup (keys : List String) : (dedupKeys keys).Nodup := by
  induction keys with
  | nil => exact List.nodup_nil
  | cons k ks ih =>
    simp only [dedupKeys, List.nodup_cons]
    refine ⟨?_, ih.sublist (List.filter_sublist _)⟩
    intro hmem
    have := (List.mem_filter.mp hmem).2
    simp at this

/-- Insertion keeps the keys. -/
theorem insertKey_perm (k : String) (keys : List String) :
    (insertKey k keys).Perm (k :: keys) := by
  induction keys with
  | nil => exact List.Perm.refl _
  | cons x xs ih =>
    unfold insertKey
    split
    · exact List.Perm.refl _
    · exact (List.Perm.cons x ih).trans (List.Perm.swap k x xs)

/-- Sorting keeps the keys. -/
theorem foldr_insertKey_perm (keys : List String) :
    (keys.foldr insertKey []).Perm keys := by
  induction keys with
  | nil => exact List.Perm.refl _
  | cons k ks ih =>
    simp only [List.foldr_cons]
    exact (insertKey_perm k _).trans (List.Perm.cons k ih)

/-- The keys of the children of a directory are distinct. -/
theorem Store.childKeys_nodup (s : Store) (dir : String) (sort : Bool) :
    (s.childKeys dir sort).Nodup := by
  unfold Store.childKeys
  cases sort with
  | false => exact dedupKeys_nodup _
  | true =>
    simp only [if_true]
    exact (foldr_insertKey_perm _).nodup_iff.mpr (dedupKeys_nodup _)

/-- The child nodes of a directory have distinct keys. -/
theorem Store.nodes_keys_nodup (s : Store) (sort recursive : Bool) (depth : Nat)
    (dir : String) : ((s.nodes sort recursive depth dir).map Node.Key).Nodup := by
  cases depth with
  | zero => exact List.nodup_nil
  | succ d =>
    have hkeys : (s.nodes sort recursive (d + 1) dir).map Node.Key = s.childKeys dir sort := by
      simp only [Store.nodes, List.map_map]
      conv_rhs => rw [← List.map_id (s.childKeys dir sort)]
      apply List.map_congr_left
      intro k _
      simp only [Function.comp]
      cases s.lookup k <;> rfl
    rw [hkeys]
    exact Store.childKeys_nodup s dir sort

/-- The nodes of a response of the store have distinct keys. -/
theorem Store.Get_keys_nodup (s : Store) (key : String) (sort recursive : Bool)
    (resp : Response) (h : s.Get key sort recursive = Except.ok resp) :
    (resp.Node.Nodes.map Node.Key).Nodup := by
  unfold Store.Get at h
  split at h
  · cases h
    exact List.nodup_nil
  · split at h
    · cases h
      exact Store.nodes_keys_nodup s sort recursive _ key
    · cases h

/-- Children with distinct keys `dir/name` have distinct names. -/
theorem names_nodup_of_keys (dir : String) (nodes : List Node) (kids : List (String × Value))
    (hkeys : nodes.map (fun node => (node.Key, node.Value)) =
      kids.map fun kid => (dir ++ "/" ++ kid.1, kid.2))
    (hnodup : (nodes.map Node.Key).Nodup) : (kids.map Prod.fst).Nodup := by
  have hk : nodes.map Node.Key = (kids.map Prod.fst).map fun name => dir ++ "/" ++ name := by
    have := congrArg (List.map Prod.fst) hkeys
    simpa [List.map_map, Function.comp] using this
  rw [hk] at hnodup
  exact List.Nodup.of_map _ hnodup

/-- A member whose name is a tag in another letter case is decoded into the
field of the tag: the document with the member `POOL`, a number, is a type
error for the string field `Pool`. -/
theorem jsonUnmarshal_upper_case_member :
    (jsonUnmarshal upperCaseDocument VolumeConfig.zero).toOption = none ∧
    (jsonUnmarshal (Value.doc (JSON.object [("Pool", JSON.string "p1")]))
        VolumeConfig.zero).toOption = some { VolumeConfig.zero with Pool := "p1" } := by
  decide

/-- C8 as stated fails: the children of the pool `pool1` have keys of the form
`poolPath/volumeName`, one holds a configuration and the other a non-empty
value that is no JSON document; `ListVolumes` returns the decode error
(volume.go:109-111) and no map. -/
theorem ListVolumes_undecodable_child :
    ((badPoolConfig.etcdClient.Get (badPoolConfig.prefixed [rootVolume, "pool1"])
        true true).toOption.map fun resp => resp.Node.Nodes.map Node.Key) =
      some [badPoolConfig.prefixed [rootVolume, "pool1"] ++ "/" ++ "bad",
        badPoolConfig.prefixed [rootVolume, "pool1"] ++ "/" ++ "vol1"] ∧
    badPoolConfig.ListVolumes "pool1" = Except.error (Error.Unmarshal "invalid JSON input") ∧
    ¬ ∃ configs, badPoolConfig.ListVolumes "pool1" = Except.ok configs := by
  refine ⟨by decide, rfl, ?_⟩
  rintro ⟨configs, h⟩
  have e : badPoolConfig.ListVolumes "pool1" =
      Except.error (Error.Unmarshal "invalid JSON input") := rfl
  rw [e] at h
  cases h

/-- C8, amended: when the children of the node of a pool have the keys
`poolPath/volumeName` and every non-empty value among them decodes as a
`VolumeConfig`, `ListVolumes` returns a map with exactly one entry for each
child whose value is not empty, under the name of the child and holding the
decoded configuration, and with no entry for a child whose value is empty: the
empty values give no decode error. -/
theorem ListVolumes_live_children (c : TopLevelConfig) (pool : String) (resp : Response)
    (kids : List (String × Value))
    (hget : c.etcdClient.Get (c.prefixed [rootVolume, pool]) true true = Except.ok resp)
    (hkeys : resp.Node.Nodes.map (fun node => (node.Key, node.Value)) =
      kids.map fun kid => (c.prefixed [rootVolume, pool] ++ "/" ++ kid.1, kid.2))
    (hdec : ∀ kid ∈ kids, kid.2.isEmpty = false →
      ∃ config, jsonUnmarshal kid.2 VolumeConfig.zero = Except.ok config) :
    ∃ configs, c.ListVolumes pool = Except.ok configs ∧
      configs.map Prod.fst = (kids.filter fun kid => !kid.2.isEmpty).map Prod.fst ∧
      (∀ kid ∈ kids, kid.2.isEmpty = false →
        ∃ config, jsonUnmarshal kid.2 VolumeConfig.zero = Except.ok config ∧
          configs.lookup kid.1 = some config) ∧
      (∀ kid ∈ kids, kid.2.isEmpty = true → configs.lookup kid.1 = none) := by
  have hnodup : (kids.map Prod.fst).Nodup :=
    names_nodup_of_keys _ _ _ hkeys (Store.Get_keys_nodup _ _ _ _ _ hget)
  have hkeysEq := liveEntries_keys kids hdec
  have hsub : ((kids.filter fun kid => !kid.2.isEmpty).map Prod.fst).Nodup :=
    hnodup.sublist (List.Sublist.map _ (List.filter_sublist _))
  refine ⟨liveEntries kids, ?_, hkeysEq, ?_, ?_⟩
  · unfold TopLevelConfig.ListVolumes
    simp only []
    rw [hget]
    simp only []
    rw [ListVolumes_loop (c.prefixed [rootVolume, pool]) resp.Node.Nodes kids [] hkeys hnodup
      (fun _ _ => by simp) hdec]
    rfl
  · intro kid hkid he
    obtain ⟨config, hc⟩ := hdec kid hkid he
    refine ⟨config, hc, ?_⟩
    apply lookup_of_mem_nodup
    · rw [hkeysEq]; exact hsub
    · unfold liveEntries
      exact List.mem_filterMap.mpr ⟨kid, hkid, by simp [he, hc]⟩
  · intro kid hkid he
    rw [List.lookup_eq_none_iff]
    intro entry hentry
    have hname : entry.1 ∈ (liveEntries kids).map Prod.fst :=
      List.mem_map.mpr ⟨entry, hentry, rfl⟩
    rw [hkeysEq] at hname
    obtain ⟨kid', hkid', hk'⟩ := List.mem_map.mp hname
    have hmem' := List.mem_filter.mp hkid'
    have hlive : kid'.2.isEmpty = false := by simpa using hmem'.2
    have hne : kid.1 ≠ entry.1 := by
      intro e
      have hsame : kid' = kid :=
        List.inj_on_of_nodup_map hnodup hmem'.1 hkid (hk'.trans e.symm)
      rw [hsame, he] at hlive
      exact Bool.noConfusion hlive
    simpa [bne_iff_ne] using hne

/-- C8, amended, at a concrete store: the pool `pool1` with the empty-valued
child `dead` and the live child `vol1` gives a map with the entry of `vol1`
only. -/
theorem ListVolumes_live_children_witness :
    (∃ configs, poolConfig.ListVolumes "pool1" = Except.ok configs ∧
      configs.map Prod.fst = ["vol1"]) ∧
    (poolConfig.ListVolumes "pool1").toOption =
      some [("vol1", { exampleVolume with Name := "", VolumeName := "" })] :=
  ⟨(ListVolumes_live_children poolConfig "pool1"
      { Node := Node.mk "/volplugin/volume/pool1" (Value.text "") true
          (poolConfig.etcdClient.nodes true true poolConfig.etcdClient.depth
            "/volplugin/volume/pool1") }
      [("dead", Value.text ""), ("vol1", jsonMarshal exampleVolume)]
      (by rfl) (by rfl)
      (by
        intro kid hkid he
        simp only [List.mem_cons, List.mem_singleton, List.mem_nil_iff, or_false] at hkid
        rcases hkid with rfl | rfl
        · exact absurd he (by decide)
        · exact ⟨_, rfl⟩)).imp
      (fun _ h => ⟨h.1, h.2.1⟩),
    by decide⟩

/-- A successful `Set` is the assignment of the value to the key. -/
theorem Store.Set_ok (s store : Store) (key : String) (value : Value) (ttl : Nat)
    (h : s.Set key value ttl = Except.ok store) : store = mapSet s key value := by
  unfold Store.Set at h
  split at h
  · cases h
  · split at h
    · cases h
    · cases h; rfl

/-- C10: `CreateVolume` writes at most the store entry at the key
`volume(pool, name)`: every other key is bound after the call as before it
(the keys of the tenant defaults among them), and whenever `CreateVolume`
returns an error, from the tenant lookup, from `mergeOpts` or from anywhere
else, the receiver and its store are what they were. -/
theorem CreateVolume_writes_one_key
    (GetTenant : TopLevelConfig → String → Except Error TenantConfig)
    (c : TopLevelConfig) (name tenant pool : String) (opts : Opts) :
    (∀ key, key ≠ c.volume pool name →
      (c.CreateVolume GetTenant name tenant pool opts).2.etcdClient.lookup key =
        c.etcdClient.lookup key) ∧
    ((c.CreateVolume GetTenant name tenant pool opts).1.2 ≠ none →
      (c.CreateVolume GetTenant name tenant pool opts).2 = c) ∧
    (∀ err, GetTenant c tenant = Except.error err →
      (c.CreateVolume GetTenant name tenant pool opts).2 = c) ∧
    (∀ resp, GetTenant c tenant = Except.ok resp →
      (mergeOpts resp.DefaultVolumeOptions opts).2 ≠ none →
      (c.CreateVolume GetTenant name tenant pool opts).2 = c) := by
  unfold TopLevelConfig.CreateVolume
  cases hg : c.GetVolume name pool with
  | ok tc => simp
  | error e =>
    dsimp only
    cases ht : GetTenant c tenant with
    | error err => simp
    | ok resp =>
      dsimp only
      generalize hm : mergeOpts resp.DefaultVolumeOptions opts = merge
      obtain ⟨merged, _ | err⟩ := merge
      · dsimp only
        cases hs : c.etcdClient.Set (c.volume pool name)
            (jsonMarshal { Name := name, Pool := pool, VolumeName := name, Options := merged }) 0 with
        | error err => simp
        | ok store =>
          have hstore := Store.Set_ok _ _ _ _ _ hs
          dsimp only
          refine ⟨?_, fun h => absurd rfl h, (fun err h => by cases h),
            fun resp' he h => by cases he; rw [hm] at h; exact absurd rfl h⟩
          intro key hkey
          rw [hstore, lookup_mapSet, if_neg hkey]
      · simp

/-- A number in the 64 bit range decodes into an unsigned integer variable. -/
theorem unmarshalUint_number (cur n : Nat) (h : n < 2 ^ 64) :
    unmarshalUint cur (JSON.number n) = Except.ok n := by
  simp only [unmarshalUint]
  rw [if_pos ⟨Int.ofNat_nonneg n, h⟩]
  rfl

/-- The encoding of a `SnapshotConfig` decodes to it. -/
theorem unmarshal_marshal_SnapshotConfig (c0 sc : SnapshotConfig) (hkeep : sc.Keep < 2 ^ 64) :
    unmarshalStruct SnapshotConfig.jsonFields c0 (marshalStruct SnapshotConfig.jsonFields sc) =
      Except.ok sc := by
  have key : unmarshalStruct SnapshotConfig.jsonFields c0
      (marshalStruct SnapshotConfig.jsonFields sc) =
      Except.bind
        (Except.map (fun n => ({ Frequency := sc.Frequency, Keep := n } : SnapshotConfig))
          (unmarshalUint c0.Keep (JSON.number sc.Keep)))
        (fun c2 => Except.ok c2) := rfl
  rw [key, unmarshalUint_number _ _ hkeep]
  rfl

/-- The encoding of a `VolumeOptions` decodes to it. -/
theorem unmarshal_marshal_VolumeOptions (o0 o : VolumeOptions)
    (hsize : o.Size < 2 ^ 64) (hkeep : o.Snapshot.Keep < 2 ^ 64) :
    unmarshalStruct VolumeOptions.jsonFields o0 (marshalStruct VolumeOptions.jsonFields o) =
      Except.ok o := by
  have key : unmarshalStruct VolumeOptions.jsonFields o0
      (marshalStruct VolumeOptions.jsonFields o) =
      Except.bind
        (Except.map (fun n => ({ o0 with Size := n } : VolumeOptions))
          (unmarshalUint o0.Size (JSON.number o.Size)))
        (fun o1 =>
          Except.bind
            (Except.map
              (fun c => ({ Size := o1.Size, UseSnapshots := o.UseSnapshots, Snapshot := c } :
                VolumeOptions))
              (unmarshalStruct SnapshotConfig.jsonFields o1.Snapshot
                (marshalStruct SnapshotConfig.jsonFields o.Snapshot)))
            (fun o3 => Except.ok o3)) := rfl
  rw [key, unmarshalUint_number _ _ hsize]
  simp only [Except.map, Except.bind, unmarshal_marshal_SnapshotConfig _ _ hkeep]

/-- The encoding of a `VolumeConfig` decodes to it without its `Name` and
`VolumeName`, the two fields tagged `name`. -/
theorem jsonUnmarshal_jsonMarshal (vc : VolumeConfig)
    (hsize : vc.Options.Size < 2 ^ 64) (hkeep : vc.Options.Snapshot.Keep < 2 ^ 64) :
    jsonUnmarshal (jsonMarshal vc) VolumeConfig.zero =
      Except.ok { vc with Name := "", VolumeName := "" } := by
  have key : jsonUnmarshal (jsonMarshal vc) VolumeConfig.zero =
      Except.bind
        (Except.map
          (fun o => ({ Name := "", Pool := vc.Pool, VolumeName := "", Options := o } :
            VolumeConfig))
          (unmarshalStruct VolumeOptions.jsonFields VolumeOptions.zero
            (marshalStruct VolumeOptions.jsonFields vc.Options)))
        (fun c2 => Except.ok c2) := rfl
  rw [key, unmarshal_marshal_VolumeOptions _ _ hsize hkeep]
  rfl

/-- When `GetVolume(name, pool)`, with the arguments in the order of line 38,
finds a configuration, `CreateVolume` returns it with `ErrExist` and writes
nothing. -/
theorem CreateVolume_of_GetVolume_ok
    (GetTenant : TopLevelConfig → String → Except Error TenantConfig)
    (c : TopLevelConfig) (name tenant pool : String) (opts : Opts) (tc : VolumeConfig)
    (h : c.GetVolume name pool = Except.ok tc) :
    c.CreateVolume GetTenant name tenant pool opts = ((some tc, some Error.ErrExist), c) := by
  unfold TopLevelConfig.CreateVolume
  rw [h]

/-- After a successful `CreateVolume`, `GetVolume(pool, name)` succeeds and
returns the configuration that was returned, without its `Name` and
`VolumeName`. -/
theorem GetVolume_after_CreateVolume
    (GetTenant : TopLevelConfig → String → Except Error TenantConfig)
    (c : TopLevelConfig) (name tenant pool : String) (opts : Opts) (vc : VolumeConfig)
    (h : (c.CreateVolume GetTenant name tenant pool opts).1 = (some vc, none))
    (hsize : vc.Options.Size < 2 ^ 64) (hkeep : vc.Options.Snapshot.Keep < 2 ^ 64) :
    (c.CreateVolume GetTenant name tenant pool opts).2.GetVolume pool name =
      Except.ok { vc with Name := "", VolumeName := "" } := by
  revert h
  unfold TopLevelConfig.CreateVolume
  cases hg : c.GetVolume name pool with
  | ok tc => intro h; simp at h
  | error e =>
    dsimp only
    cases ht : GetTenant c tenant with
    | error err => intro h; simp at h
    | ok resp =>
      dsimp only
      generalize mergeOpts resp.DefaultVolumeOptions opts = merge
      obtain ⟨merged, _ | err⟩ := merge
      · dsimp only
        cases hs : c.etcdClient.Set (c.volume pool name)
            (jsonMarshal { Name := name, Pool := pool, VolumeName := name, Options := merged }) 0 with
        | error err => intro h; simp at h
        | ok store =>
          have hstore := Store.Set_ok _ _ _ _ _ hs
          dsimp only
          intro h
          simp only [Prod.mk.injEq, Option.some.injEq, and_true] at h
          subst h
          have hlook : store.lookup (c.volume pool name) = some (jsonMarshal
              { Name := name, Pool := pool, VolumeName := name, Options := merged }) := by
            rw [hstore, lookup_mapSet, if_pos rfl]
          unfold TopLevelConfig.GetVolume Store.Get
          simp only [TopLevelConfig.volume, TopLevelConfig.prefixed] at hlook ⊢
          rw [hlook]
          exact jsonUnmarshal_jsonMarshal _ hsize hkeep
      · intro h; simp at h

/-- C2, the code at a failing input: the store holds a configuration of size 10
at the key of `(pool1, vol1)`; `CreateVolume("vol1", "tenant1", "pool1", {})`
looks for the volume at the key of `(vol1, pool1)`, finds none, returns no
error, and replaces the stored configuration by one of size 20. -/
theorem CreateVolume_existing_not_detected :
    (exampleConfig.GetVolume "pool1" "vol1").toOption =
      some { exampleVolume with Name := "", VolumeName := "" } ∧
    (exampleConfig.CreateVolume exampleGetTenant "vol1" "tenant1" "pool1" []).1 =
      (some createdVolume, none) ∧
    ((exampleConfig.CreateVolume exampleGetTenant "vol1" "tenant1" "pool1" []).2.GetVolume
        "pool1" "vol1").toOption =
      some { createdVolume with Name := "", VolumeName := "" } ∧
    createdVolume.Options ≠ exampleVolume.Options := by
  decide

/-- C7, the code at a failing input: on an empty store
`CreateVolume("vol1", "tenant1", "pool1", {})` succeeds and returns a
configuration named `vol1`; the following `GetVolume("pool1", "vol1")`
succeeds and returns a configuration whose `Name` and `VolumeName` are empty,
which is not the one that was returned. -/
theorem CreateVolume_GetVolume_loses_name :
    (emptyConfig.CreateVolume exampleGetTenant "vol1" "tenant1" "pool1" []).1 =
      (some createdVolume, none) ∧
    createdVolume.Name = "vol1" ∧
    ((emptyConfig.CreateVolume exampleGetTenant "vol1" "tenant1" "pool1" []).2.GetVolume
        "pool1" "vol1").toOption =
      some { createdVolume with Name := "", VolumeName := "" } ∧
    ((emptyConfig.CreateVolume exampleGetTenant "vol1" "tenant1" "pool1" []).2.GetVolume
        "pool1" "vol1").toOption ≠
      (emptyConfig.CreateVolume exampleGetTenant "vol1" "tenant1" "pool1" []).1.1 := by
  decide

end config
